import Mathlib

/-!
Shallow embedding of the ruis RESP codec and connection layer
(src/resp.rs, src/connection.rs, src/types.rs).

Byte streams are lists of natural numbers (one per byte).  The reader is
modelled with explicit fuel; the only way a call can run out of fuel is a
recursion deeper than the input length, which never happens on inputs the
theorems below consider.  A Rust panic (index out of bounds) is modelled by
the dedicated outcome constructor crash.
-/

/-- Value model from src/types.rs: the RespValue enum. -/
inductive RespValue where
  | Int : Int → RespValue
  | NilBulk : RespValue
  | NilArray : RespValue
  | Bulk : List Nat → RespValue
  | Array : List RespValue → RespValue
  | Error : List Nat → RespValue

/-- Error model from src/types.rs: the RespError enum. -/
inductive RespError where
  | IoError : String → RespError
  | ParseFailed : String → RespError
  | Unexpected : String → RespError
  | Unknown : RespError
deriving DecidableEq

/-- Result of running a reader step: a value, a returned error, or a Rust
panic (modelled explicitly, named crash). -/
inductive Outcome (α : Type) where
  | ok : α → Outcome α
  | err : RespError → Outcome α
  | crash : Outcome α

/-- ASCII decimal digit test (used to model i64::from_str). -/
def isDigitB (b : Nat) : Bool := 48 ≤ b && b ≤ 57

/-- Numeric value of a list of ASCII digit bytes, most significant first. -/
def decVal (l : List Nat) : Nat := l.foldl (fun a b => a * 10 + (b - 48)) 0

/-- Digit-span parser behind i64::from_str: all bytes must be ASCII digits
and there must be at least one. -/
def digitsNat (l : List Nat) : Option Nat :=
  if !l.isEmpty && l.all isDigitB then some (decVal l) else none

/-- Unsigned branch of i64::from_str: digits with the i64 max bound. -/
def pos64 (ds : List Nat) : Option Int :=
  (digitsNat ds).bind (fun m => if m ≤ 9223372036854775807 then some (m : Int) else none)

/-- Negative branch of i64::from_str: digits with the i64 min bound. -/
def neg64 (ds : List Nat) : Option Int :=
  (digitsNat ds).bind (fun m => if m ≤ 9223372036854775808 then some (-(m : Int)) else none)

/-- Model of Rust i64::from_str on the raw bytes: an optional leading plus
or minus sign followed by at least one ASCII digit, value within the i64
range.  Acceptance only ever happens on ASCII input, so working on bytes
agrees with Rust working on chars of the already validated string. -/
def i64fromStr : List Nat → Option Int
  | [] => none
  | b :: t =>
    if b = 43 then pos64 t
    else if b = 45 then neg64 t
    else pos64 (b :: t)

/-- UTF-8 continuation byte test (0x80 to 0xBF). -/
def contB (b : Nat) : Bool := 128 ≤ b && b ≤ 191

/-- Constraint on the second byte of a three-byte UTF-8 sequence. -/
def cont2ok (b c : Nat) : Bool :=
  if b = 224 then 160 ≤ c && c ≤ 191
  else if b = 237 then 128 ≤ c && c ≤ 159
  else contB c

/-- Constraint on the second byte of a four-byte UTF-8 sequence. -/
def cont4ok (b c : Nat) : Bool :=
  if b = 240 then 144 ≤ c && c ≤ 191
  else if b = 244 then 128 ≤ c && c ≤ 143
  else contB c

/-- Model of Rust str::from_utf8 validity on a byte list. -/
def utf8Valid : List Nat → Bool
  | [] => true
  | b :: rest =>
    if b ≤ 127 then utf8Valid rest
    else if 194 ≤ b && b ≤ 223 then
      match rest with
      | [] => false
      | c1 :: r1 => contB c1 && utf8Valid r1
    else if 224 ≤ b && b ≤ 239 then
      match rest with
      | [] => false
      | c1 :: r1 =>
        if cont2ok b c1 then
          match r1 with
          | [] => false
          | c2 :: r2 => contB c2 && utf8Valid r2
        else false
    else if 240 ≤ b && b ≤ 244 then
      match rest with
      | [] => false
      | c1 :: r1 =>
        if cont4ok b c1 then
          match r1 with
          | [] => false
          | c2 :: r2 =>
            if contB c2 then
              match r2 with
              | [] => false
              | c3 :: r3 => contB c3 && utf8Valid r3
            else false
        else false
    else false

/-- UTF-8 encoding of the replacement character U+FFFD. -/
def fffd : List Nat := [239, 191, 189]

/-- Model of Rust String::from_utf8_lossy: valid sequences are copied,
each maximal subpart of an invalid sequence becomes one U+FFFD. -/
def utf8Lossy : List Nat → List Nat
  | [] => []
  | b :: rest =>
    if b ≤ 127 then b :: utf8Lossy rest
    else if 194 ≤ b && b ≤ 223 then
      match rest with
      | [] => fffd
      | c1 :: r1 =>
        if contB c1 then b :: c1 :: utf8Lossy r1 else fffd ++ utf8Lossy (c1 :: r1)
    else if 224 ≤ b && b ≤ 239 then
      match rest with
      | [] => fffd
      | c1 :: r1 =>
        if cont2ok b c1 then
          match r1 with
          | [] => fffd
          | c2 :: r2 =>
            if contB c2 then b :: c1 :: c2 :: utf8Lossy r2
            else fffd ++ utf8Lossy (c2 :: r2)
        else fffd ++ utf8Lossy (c1 :: r1)
    else if 240 ≤ b && b ≤ 244 then
      match rest with
      | [] => fffd
      | c1 :: r1 =>
        if cont4ok b c1 then
          match r1 with
          | [] => fffd
          | c2 :: r2 =>
            if contB c2 then
              match r2 with
              | [] => fffd
              | c3 :: r3 =>
                if contB c3 then b :: c1 :: c2 :: c3 :: utf8Lossy r3
                else fffd ++ utf8Lossy (c3 :: r3)
            else fffd ++ utf8Lossy (c2 :: r2)
        else fffd ++ utf8Lossy (c1 :: r1)
    else fffd ++ utf8Lossy rest

/-- Model of BufRead::read_until newline: returns the bytes read (up to and
including the first line feed, or all remaining bytes) and the rest. -/
def read_until_lf : List Nat → List Nat × List Nat
  | [] => ([], [])
  | b :: rest =>
    if b = 10 then ([10], rest)
    else
      let p := read_until_lf rest
      (b :: p.1, p.2)

/-- Model of line.ends_with of the two bytes CR LF. -/
def endsWithCRLF (l : List Nat) : Bool :=
  match l.reverse with
  | a :: b :: _ => a = 10 && b = 13
  | _ => false

/-- RespReader::read_line from src/resp.rs: read until line feed, require a
CR LF terminator, strip it (two pops).  The second component is the stream
remaining after the consumed bytes. -/
def read_line (s : List Nat) : Except RespError (List Nat) × List Nat :=
  let p := read_until_lf s
  if endsWithCRLF p.1 then (Except.ok p.1.dropLast.dropLast, p.2)
  else (Except.error (RespError.ParseFailed "line not ends with CRLF"), p.2)

/-- RespReader::parse_int from src/resp.rs: reject an empty span, check
UTF-8, then i64::from_str. -/
def parse_int (buf : List Nat) : Except RespError Int :=
  if buf.length = 0 then Except.error (RespError.ParseFailed "malformed integer")
  else if !(utf8Valid buf) then Except.error (RespError.ParseFailed "bad utf8")
  else
    match i64fromStr buf with
    | some n => Except.ok n
    | none => Except.error (RespError.ParseFailed "parse int failed")

/-- Model of Read::read_exact of l bytes: error on short read (the consumed
remainder after a failure is unobservable in the theorems below). -/
def read_exact (l : Nat) (s : List Nat) : Except RespError (List Nat) × List Nat :=
  if s.length < l then
    (Except.error (RespError.ParseFailed "io err: failed to fill whole buffer"), [])
  else (Except.ok (s.take l), s.drop l)

/-- RespReader::read_bulk_string from src/resp.rs: read exactly l payload
bytes, then require an empty CR LF terminated trailer line. -/
def read_bulk_string (l : Nat) (s : List Nat) : Except RespError (List Nat) × List Nat :=
  match read_exact l s with
  | (Except.error e, r) => (Except.error e, r)
  | (Except.ok buf, r) =>
    match read_line r with
    | (Except.error e, r2) => (Except.error e, r2)
    | (Except.ok line, r2) =>
      if line.length ≠ 0 then
        (Except.error (RespError.ParseFailed "bad bulk string format"), r2)
      else (Except.ok buf, r2)

/-- The loop of RespReader::read_array from src/resp.rs, abstracted over
the recursive reader call: read n values in order, propagating errors and
panics. -/
def readMany (rd : List Nat → Option (Outcome RespValue × List Nat)) :
    Nat → List Nat → Option (Outcome (List RespValue) × List Nat)
  | 0, s => some (Outcome.ok [], s)
  | n + 1, s =>
    match rd s with
    | none => none
    | some (Outcome.err e, r) => some (Outcome.err e, r)
    | some (Outcome.crash, r) => some (Outcome.crash, r)
    | some (Outcome.ok v, r) =>
      match readMany rd n r with
      | none => none
      | some (Outcome.err e, r2) => some (Outcome.err e, r2)
      | some (Outcome.crash, r2) => some (Outcome.crash, r2)
      | some (Outcome.ok vs, r2) => some (Outcome.ok (v :: vs), r2)

/-- RespReader::read from src/resp.rs, with explicit fuel for the recursion
through arrays.  Indexing line[0] on an empty line is the Rust panic,
modelled as crash.  none means fuel ran out (never reachable with the fuel
decode supplies, since every recursion level consumes input). -/
def readF : Nat → List Nat → Option (Outcome RespValue × List Nat)
  | 0, _ => none
  | fuel + 1, s =>
    match read_line s with
    | (Except.error e, rest) => some (Outcome.err e, rest)
    | (Except.ok line, rest) =>
      match line with
      | [] => some (Outcome.crash, rest)
      | t :: lrem =>
        if t = 58 then
          match parse_int lrem with
          | Except.error e => some (Outcome.err e, rest)
          | Except.ok n => some (Outcome.ok (RespValue.Int n), rest)
        else if t = 43 then some (Outcome.ok (RespValue.Bulk lrem), rest)
        else if t = 45 then some (Outcome.ok (RespValue.Error lrem), rest)
        else if t = 36 then
          match parse_int lrem with
          | Except.error e => some (Outcome.err e, rest)
          | Except.ok n =>
            if n = -1 then some (Outcome.ok RespValue.NilBulk, rest)
            else if n < 0 then
              some (Outcome.err (RespError.ParseFailed "malformed length"), rest)
            else
              match read_bulk_string n.toNat rest with
              | (Except.error e, rest2) => some (Outcome.err e, rest2)
              | (Except.ok buf, rest2) => some (Outcome.ok (RespValue.Bulk buf), rest2)
        else if t = 42 then
          match parse_int lrem with
          | Except.error e => some (Outcome.err e, rest)
          | Except.ok n =>
            if n = -1 then some (Outcome.ok RespValue.NilArray, rest)
            else if n < 0 then
              some (Outcome.err (RespError.ParseFailed "malformed length"), rest)
            else
              match readMany (readF fuel) n.toNat rest with
              | none => none
              | some (Outcome.err e, rest2) => some (Outcome.err e, rest2)
              | some (Outcome.crash, rest2) => some (Outcome.crash, rest2)
              | some (Outcome.ok arr, rest2) => some (Outcome.ok (RespValue.Array arr), rest2)
        else
          some (Outcome.err
            (RespError.ParseFailed ("unexpected token: ".push (Char.ofNat t))), rest)

/-- One reader call on a finite input, with fuel that always suffices
(each recursion level consumes at least four bytes of input). -/
def decode (s : List Nat) : Option (Outcome RespValue × List Nat) :=
  readF (s.length + 1) s

/-- Decimal digits of n, most significant first, with structural fuel. -/
def natDigsF : Nat → Nat → List Nat
  | 0, _ => []
  | fuel + 1, n => if n = 0 then [] else natDigsF fuel (n / 10) ++ [48 + n % 10]

/-- ASCII decimal rendering of a natural number (Rust Display of a length). -/
def natDec (n : Nat) : List Nat := if n = 0 then [48] else natDigsF n n

/-- ASCII decimal rendering of an integer (Rust Display of an i64). -/
def intDec (n : Int) : List Nat :=
  if n < 0 then 45 :: natDec (-n).toNat else natDec n.toNat

/-- RespWriter::write_int from src/resp.rs. -/
def write_int (n : Int) : List Nat := 58 :: intDec n ++ [13, 10]

/-- RespWriter::write_bulk from src/resp.rs. -/
def write_bulk (b : List Nat) : List Nat :=
  36 :: natDec b.length ++ [13, 10] ++ b ++ [13, 10]

/-- The per-element loop of RespWriter::write_bulks. -/
def write_bulks_elems : List (List Nat) → List Nat
  | [] => []
  | b :: bs => write_bulk b ++ write_bulks_elems bs

/-- RespWriter::write_bulks from src/resp.rs. -/
def write_bulks (bs : List (List Nat)) : List Nat :=
  42 :: natDec bs.length ++ [13, 10] ++ write_bulks_elems bs

/-- RespWriter::write_error from src/resp.rs (its argument is already a
string; the lossy conversion happens at the call site in write). -/
def write_error (s : List Nat) : List Nat := 45 :: s ++ [13, 10]

mutual
/-- RespWriter::write from src/resp.rs, as the bytes it pushes to the sink.
The two nil arms reproduce the format strings of the source verbatim:
the bytes of the text DOLLAR CR LF MINUS ONE CR LF and STAR CR LF MINUS ONE
CR LF. -/
def write : RespValue → List Nat
  | RespValue.Int n => write_int n
  | RespValue.Bulk s => write_bulk s
  | RespValue.Error s => write_error (utf8Lossy s)
  | RespValue.Array arr => 42 :: natDec arr.length ++ [13, 10] ++ writeElems arr
  | RespValue.NilArray => [42, 13, 10, 45, 49, 13, 10]
  | RespValue.NilBulk => [36, 13, 10, 45, 49, 13, 10]

/-- The per-element loop of RespWriter::write_array. -/
def writeElems : List RespValue → List Nat
  | [] => []
  | v :: vs => write v ++ writeElems vs
end

/-- Connection state: bytes pushed to the writer but not flushed, bytes
flushed to the transport, and the unread server reply bytes. -/
structure ConnState where
  buffered : List Nat
  flushed : List Nat
  input : List Nat
deriving DecidableEq

/-- GenericConnection::execute from src/connection.rs: write_bulks on the
writer, then one read on the reader.  No flush appears in the source. -/
def execute (cmd : List (List Nat)) (st : ConnState) :
    Option (Outcome RespValue) × ConnState :=
  let buf2 := st.buffered ++ write_bulks cmd
  match decode st.input with
  | none => (none, { buffered := buf2, flushed := st.flushed, input := st.input })
  | some (r, rest) => (some r, { buffered := buf2, flushed := st.flushed, input := rest })

/-- RespWriter::flush from src/resp.rs: push the buffered bytes through. -/
def flushW (st : ConnState) : ConnState :=
  { buffered := [], flushed := st.flushed ++ st.buffered, input := st.input }

/-- GenericConnection::auth from src/connection.rs: execute the command of
the two byte strings auth (lowercase, bytes 97 117 116 104) and the
password. -/
def auth (password : List Nat) (st : ConnState) :
    Option (Outcome RespValue) × ConnState :=
  execute [[97, 117, 116, 104], password] st

/-- Result of TcpConnection::connect, abstracted over the transport. -/
inductive ConnectResult where
  | ok : ConnState → ConnectResult
  | authFail : ConnectResult
  | crashed : ConnectResult
  | fuelOut : ConnectResult
deriving DecidableEq

/-- TcpConnection::connect from src/connection.rs, with the transport
abstracted to the reply bytes the server will send: build the connection
state, and when a password is given run auth, turning an error of the
exchange into a construction failure (the or_else to PermissionDenied). -/
def connect (passwordOpt : Option (List Nat)) (input : List Nat) : ConnectResult :=
  let st0 : ConnState := { buffered := [], flushed := [], input := input }
  match passwordOpt with
  | none => ConnectResult.ok st0
  | some p =>
    match auth p st0 with
    | (none, _) => ConnectResult.fuelOut
    | (some Outcome.crash, _) => ConnectResult.crashed
    | (some (Outcome.err _), _) => ConnectResult.authFail
    | (some (Outcome.ok _), st1) => ConnectResult.ok st1

/-- Spec-side predicate: a nonempty span of ASCII decimal digits. -/
def isDigitList (l : List Nat) : Prop := l ≠ [] ∧ ∀ b ∈ l, 48 ≤ b ∧ b ≤ 57

/-- Spec-side form of claim C8, as written: a base-10 decimal 64-bit
integer with an optional leading minus sign and nothing else. -/
def claimIntForm (rem : List Nat) (n : Int) : Prop :=
  (isDigitList rem ∧ n = (decVal rem : Int) ∧ decVal rem ≤ 9223372036854775807)
  ∨ (rem.head? = some 45 ∧ isDigitList rem.tail ∧ n = -((decVal rem.tail : Int))
      ∧ decVal rem.tail ≤ 9223372036854775808)

/-- The extra form the code also accepts: a leading plus sign. -/
def plusIntForm (rem : List Nat) (n : Int) : Prop :=
  rem.head? = some 43 ∧ isDigitList rem.tail ∧ n = (decVal rem.tail : Int)
    ∧ decVal rem.tail ≤ 9223372036854775807

/-- Amended form for claim C8: optional leading minus or plus sign. -/
def amendedIntForm (rem : List Nat) (n : Int) : Prop :=
  claimIntForm rem n ∨ plusIntForm rem n

mutual
/-- Wellformedness for the amended round-trip claim: no nil variants,
integers in the i64 range, lengths in the i64 range (they are usize values
rendered in decimal and reparsed as i64), error payloads valid UTF-8 with
no line feed byte. -/
def wf : RespValue → Bool
  | RespValue.Int n => -9223372036854775808 ≤ n && n ≤ 9223372036854775807
  | RespValue.Bulk b => b.length ≤ 9223372036854775807
  | RespValue.Error p => utf8Valid p && p.all (fun b => b ≠ 10)
  | RespValue.NilBulk => false
  | RespValue.NilArray => false
  | RespValue.Array l => l.length ≤ 9223372036854775807 && wfList l

/-- Wellformedness of every element of an array. -/
def wfList : List RespValue → Bool
  | [] => true
  | v :: vs => wf v && wfList vs
end

mutual
/-- Number of reader calls needed to decode a value: one per node. -/
def nodeCount : RespValue → Nat
  | RespValue.Array l => 1 + nodeCountList l
  | _ => 1

/-- Sum of node counts over array elements. -/
def nodeCountList : List RespValue → Nat
  | [] => 0
  | v :: vs => nodeCount v + nodeCountList vs
end

/-! Helper lemmas about line framing. -/

/-- Reading until a line feed from a line feed free prefix followed by a
line feed splits exactly there. -/
theorem read_until_lf_no_lf (l : List Nat) (r : List Nat) (h : 10 ∉ l) :
    read_until_lf (l ++ 10 :: r) = (l ++ [10], r) := by
  induction l with
  | nil => simp [read_until_lf]
  | cons b t ih =>
    have hb : b ≠ 10 := by intro hb; exact h (by simp [hb])
    have ht : 10 ∉ t := by intro hm; exact h (by simp [hm])
    simp [read_until_lf, hb, ih ht]

/-- Reading until a line feed never reorders the stream. -/
theorem read_until_lf_split (s : List Nat) :
    (read_until_lf s).1 ++ (read_until_lf s).2 = s := by
  induction s with
  | nil => simp [read_until_lf]
  | cons b t ih =>
    by_cases hb : b = 10
    · simp [read_until_lf, hb]
    · simp [read_until_lf, hb, ih]

/-- The terminator test accepts a list ending in CR LF. -/
theorem endsWithCRLF_append (l : List Nat) : endsWithCRLF (l ++ [13, 10]) = true := by
  simp [endsWithCRLF]

/-- Stripping CR LF from a list that ends in CR LF gives the prefix. -/
theorem dropLast2_append (l : List Nat) : (l ++ [13, 10]).dropLast.dropLast = l := by
  have h1 : l ++ [13, 10] = (l ++ [13]) ++ [10] := by simp
  rw [h1, List.dropLast_concat, List.dropLast_concat]

/-- A list accepted by the terminator test decomposes as its stripped form
followed by CR LF. -/
theorem endsWithCRLF_decomp (l : List Nat) (h : endsWithCRLF l = true) :
    l = l.dropLast.dropLast ++ [13, 10] := by
  unfold endsWithCRLF at h
  rcases hr : l.reverse with _ | ⟨a, _ | ⟨b, t⟩⟩
  · rw [hr] at h; simp at h
  · rw [hr] at h; simp at h
  · rw [hr] at h
    simp only [Bool.and_eq_true, decide_eq_true_eq] at h
    obtain ⟨ha, hb⟩ := h
    have hl : l = t.reverse ++ [b, a] := by
      have := congrArg List.reverse hr
      simpa using this
    subst ha hb
    have hl2 : l = t.reverse ++ [13, 10] := by simpa using hl
    rw [hl2, dropLast2_append]

/-- read_line on a line feed free line followed by CR LF and a remainder
returns that line and leaves exactly the remainder. -/
theorem read_line_crlf (l : List Nat) (r : List Nat) (h : 10 ∉ l) :
    read_line (l ++ 13 :: 10 :: r) = (Except.ok l, r) := by
  have h13 : 10 ∉ l ++ [13] := by
    intro hm
    rcases List.mem_append.mp hm with hm | hm
    · exact h hm
    · simp at hm
  have hu : read_until_lf ((l ++ [13]) ++ 10 :: r) = ((l ++ [13]) ++ [10], r) :=
    read_until_lf_no_lf (l ++ [13]) r h13
  have heq : l ++ 13 :: 10 :: r = (l ++ [13]) ++ 10 :: r := by simp
  have heq2 : (l ++ [13]) ++ [10] = l ++ [13, 10] := by simp
  rw [read_line, heq, hu]
  simp only [heq2, endsWithCRLF_append, if_pos]
  rw [dropLast2_append]

/-- A successful read_line call consumed exactly the returned line followed
by CR LF. -/
theorem read_line_ok (s : List Nat) (line r : List Nat)
    (h : read_line s = (Except.ok line, r)) : s = line ++ 13 :: 10 :: r := by
  unfold read_line at h
  by_cases he : endsWithCRLF (read_until_lf s).1 = true
  · simp only [he, if_pos] at h
    have h1 : (read_until_lf s).1.dropLast.dropLast = line := by
      have := congrArg Prod.fst h
      simpa using this
    have h2 : (read_until_lf s).2 = r := by
      have := congrArg Prod.snd h
      simpa using this
    have h3 := endsWithCRLF_decomp _ he
    have h4 := read_until_lf_split s
    rw [← h4, h3, h1, h2]
    simp
  · simp only [he] at h
    simp at h

/-! Helper lemmas about decimal digits. -/

/-- isDigitB unfolded to a proposition. -/
theorem isDigitB_iff (b : Nat) : isDigitB b = true ↔ 48 ≤ b ∧ b ≤ 57 := by
  simp [isDigitB]

/-- Appending one digit multiplies the value by ten and adds the digit. -/
theorem decVal_append (l : List Nat) (d : Nat) :
    decVal (l ++ [d]) = decVal l * 10 + (d - 48) := by
  simp [decVal, List.foldl_append]

/-- The fueled digit renderer is correct whenever the fuel covers n. -/
theorem natDigsF_spec (fuel : Nat) : ∀ n, n ≤ fuel →
    (∀ b ∈ natDigsF fuel n, 48 ≤ b ∧ b ≤ 57) ∧ decVal (natDigsF fuel n) = n := by
  induction fuel with
  | zero =>
    intro n hn
    have h0 : n = 0 := by omega
    subst h0
    simp [natDigsF, decVal]
  | succ f ih =>
    intro n hn
    by_cases h0 : n = 0
    · subst h0; simp [natDigsF, decVal]
    · have hdiv : n / 10 ≤ f := by
        have := Nat.div_lt_self (Nat.pos_of_ne_zero h0) (by omega : 1 < 10)
        omega
      obtain ⟨hd, hv⟩ := ih (n / 10) hdiv
      simp only [natDigsF, h0, if_neg, ite_false]
      constructor
      · intro b hb
        rcases List.mem_append.mp hb with hb | hb
        · exact hd b hb
        · simp at hb
          have : n % 10 < 10 := Nat.mod_lt _ (by omega)
          omega
      · rw [decVal_append, hv]
        have := Nat.div_add_mod n 10
        have : n % 10 < 10 := Nat.mod_lt _ (by omega)
        omega

/-- Every byte of a rendered natural number is an ASCII digit. -/
theorem natDec_digits (n : Nat) : ∀ b ∈ natDec n, 48 ≤ b ∧ b ≤ 57 := by
  unfold natDec
  by_cases h0 : n = 0
  · subst h0; intro b hb; simp at hb; omega
  · simp only [h0, ite_false]
    exact (natDigsF_spec n n le_rfl).1

/-- The rendering of a natural number is never empty. -/
theorem natDec_ne_nil (n : Nat) : natDec n ≠ [] := by
  unfold natDec
  by_cases h0 : n = 0
  · subst h0; simp
  · simp only [h0, ite_false]
    intro he
    have := (natDigsF_spec n n le_rfl).2
    rw [he] at this
    simp [decVal] at this
    omega

/-- Parsing back the rendering of a natural number gives it back. -/
theorem decVal_natDec (n : Nat) : decVal (natDec n) = n := by
  unfold natDec
  by_cases h0 : n = 0
  · subst h0; simp [decVal]
  · simp only [h0, ite_false]
    exact (natDigsF_spec n n le_rfl).2

/-- digitsNat characterized. -/
theorem digitsNat_some_iff (l : List Nat) (m : Nat) :
    digitsNat l = some m ↔ (l ≠ [] ∧ (∀ b ∈ l, 48 ≤ b ∧ b ≤ 57) ∧ m = decVal l) := by
  unfold digitsNat
  by_cases hc : (!l.isEmpty && l.all isDigitB) = true
  · simp only [hc, if_pos, Option.some_inj]
    rw [Bool.and_eq_true] at hc
    have h1 : l ≠ [] := by
      simpa [List.isEmpty_iff] using hc.1
    have h2 : ∀ b ∈ l, 48 ≤ b ∧ b ≤ 57 := by
      intro b hb
      exact (isDigitB_iff b).mp (List.all_eq_true.mp hc.2 b hb)
    constructor
    · intro h; exact ⟨h1, h2, h.symm⟩
    · intro h; exact h.2.2.symm
  · simp only [hc, if_neg, Bool.not_eq_true]
    constructor
    · intro h; simp at h
    · rintro ⟨h1, h2, _⟩
      exfalso
      apply hc
      rw [Bool.and_eq_true]
      constructor
      · simpa [List.isEmpty_iff] using h1
      · exact List.all_eq_true.mpr (fun b hb => (isDigitB_iff b).mpr (h2 b hb))

/-- digitsNat recovers a rendered natural number. -/
theorem digitsNat_natDec (n : Nat) : digitsNat (natDec n) = some n :=
  (digitsNat_some_iff _ _).mpr ⟨natDec_ne_nil n, natDec_digits n, (decVal_natDec n).symm⟩

/-- A list of ASCII bytes is valid UTF-8. -/
theorem ascii_utf8Valid (l : List Nat) (h : ∀ b ∈ l, b ≤ 127) : utf8Valid l = true := by
  induction l with
  | nil => simp [utf8Valid]
  | cons b t ih =>
    have hb : b ≤ 127 := h b (by simp)
    unfold utf8Valid
    rw [if_pos hb]
    exact ih (fun c hc => h c (by simp [hc]))

/-- The unsigned branch characterized. -/
theorem pos64_some_iff (ds : List Nat) (n : Int) :
    pos64 ds = some n ↔
      (ds ≠ [] ∧ (∀ b ∈ ds, 48 ≤ b ∧ b ≤ 57) ∧ n = (decVal ds : Int)
        ∧ decVal ds ≤ 9223372036854775807) := by
  constructor
  · intro h
    rw [pos64, Option.bind_eq_some] at h
    obtain ⟨m, hm, hif⟩ := h
    obtain ⟨hne, hdig, hmv⟩ := (digitsNat_some_iff _ _).mp hm
    subst hmv
    by_cases hb : decVal ds ≤ 9223372036854775807
    · rw [if_pos hb] at hif
      exact ⟨hne, hdig, (Option.some_inj.mp hif).symm, hb⟩
    · rw [if_neg hb] at hif; simp at hif
  · rintro ⟨h1, h2, h3, h4⟩
    rw [pos64, Option.bind_eq_some]
    exact ⟨decVal ds, (digitsNat_some_iff _ _).mpr ⟨h1, h2, rfl⟩, by rw [if_pos h4, h3]⟩

/-- The negative branch characterized. -/
theorem neg64_some_iff (ds : List Nat) (n : Int) :
    neg64 ds = some n ↔
      (ds ≠ [] ∧ (∀ b ∈ ds, 48 ≤ b ∧ b ≤ 57) ∧ n = -(decVal ds : Int)
        ∧ decVal ds ≤ 9223372036854775808) := by
  constructor
  · intro h
    rw [neg64, Option.bind_eq_some] at h
    obtain ⟨m, hm, hif⟩ := h
    obtain ⟨hne, hdig, hmv⟩ := (digitsNat_some_iff _ _).mp hm
    subst hmv
    by_cases hb : decVal ds ≤ 9223372036854775808
    · rw [if_pos hb] at hif
      exact ⟨hne, hdig, (Option.some_inj.mp hif).symm, hb⟩
    · rw [if_neg hb] at hif; simp at hif
  · rintro ⟨h1, h2, h3, h4⟩
    rw [neg64, Option.bind_eq_some]
    exact ⟨decVal ds, (digitsNat_some_iff _ _).mpr ⟨h1, h2, rfl⟩, by rw [if_pos h4, h3]⟩

/-- Bytes accepted by the integer parser are signs or digits. -/
theorem i64fromStr_bytes (l : List Nat) (n : Int) (h : i64fromStr l = some n) :
    ∀ b ∈ l, 43 ≤ b ∧ b ≤ 57 := by
  rcases l with _ | ⟨b, t⟩
  · intro c hc; simp at hc
  · simp only [i64fromStr] at h
    by_cases h43 : b = 43
    · rw [if_pos h43] at h
      obtain ⟨_, hdig, _, _⟩ := (pos64_some_iff _ _).mp h
      intro c hc
      rcases List.mem_cons.mp hc with hc | hc
      · subst hc; omega
      · have := hdig c hc; omega
    · rw [if_neg h43] at h
      by_cases h45 : b = 45
      · rw [if_pos h45] at h
        obtain ⟨_, hdig, _, _⟩ := (neg64_some_iff _ _).mp h
        intro c hc
        rcases List.mem_cons.mp hc with hc | hc
        · subst hc; omega
        · have := hdig c hc; omega
      · rw [if_neg h45] at h
        obtain ⟨_, hdig, _, _⟩ := (pos64_some_iff _ _).mp h
        intro c hc
        have := hdig c hc
        omega

/-- The byte level integer parser agrees with the amended declarative
form: an optional leading minus or plus sign, a nonempty digit span, and
the value within the signed 64-bit range. -/
theorem i64fromStr_iff (rem : List Nat) (n : Int) :
    i64fromStr rem = some n ↔ amendedIntForm rem n := by
  rcases rem with _ | ⟨b, t⟩
  · simp [i64fromStr, amendedIntForm, claimIntForm, plusIntForm, isDigitList]
  · simp only [i64fromStr]
    by_cases h43 : b = 43
    · subst h43
      rw [if_pos rfl, pos64_some_iff]
      unfold amendedIntForm claimIntForm plusIntForm isDigitList
      simp only [List.head?_cons, List.tail_cons, Option.some_inj]
      constructor
      · rintro ⟨h1, h2, h3, h4⟩
        exact Or.inr ⟨by trivial, ⟨h1, h2⟩, h3, h4⟩
      · rintro ((⟨⟨_, hdig⟩, _, _⟩ | ⟨hh, _, _⟩) | ⟨_, hdg, hv, hb⟩)
        · exact absurd (hdig 43 (by simp)) (by omega)
        · simp_all
        · exact ⟨hdg.1, hdg.2, hv, hb⟩
    · rw [if_neg h43]
      by_cases h45 : b = 45
      · subst h45
        rw [if_pos rfl, neg64_some_iff]
        unfold amendedIntForm claimIntForm plusIntForm isDigitList
        simp only [List.head?_cons, List.tail_cons, Option.some_inj]
        constructor
        · rintro ⟨h1, h2, h3, h4⟩
          exact Or.inl (Or.inr ⟨by trivial, ⟨h1, h2⟩, h3, h4⟩)
        · rintro ((⟨⟨_, hdig⟩, _, _⟩ | ⟨_, hdg, hv, hb⟩) | ⟨hh, _, _⟩)
          · exact absurd (hdig 45 (by simp)) (by omega)
          · exact ⟨hdg.1, hdg.2, hv, hb⟩
          · simp_all
      · rw [if_neg h45, pos64_some_iff]
        unfold amendedIntForm claimIntForm plusIntForm isDigitList
        simp only [List.head?_cons, List.tail_cons, Option.some_inj]
        constructor
        · rintro ⟨h1, h2, h3, h4⟩
          exact Or.inl (Or.inl ⟨⟨h1, h2⟩, h3, h4⟩)
        · rintro ((⟨⟨hn, hdig⟩, hv, hb⟩ | ⟨hh, _, _⟩) | ⟨hh, _, _⟩)
          · exact ⟨hn, hdig, hv, hb⟩
          · simp_all
          · simp_all

/-- parse_int succeeds exactly when i64::from_str does. -/
theorem parse_int_ok_iff (l : List Nat) (n : Int) :
    parse_int l = Except.ok n ↔ i64fromStr l = some n := by
  constructor
  · intro h
    unfold parse_int at h
    by_cases h0 : l.length = 0
    · rw [if_pos h0] at h; simp at h
    · rw [if_neg h0] at h
      by_cases hu : utf8Valid l = true
      · rw [if_neg (by simp [hu])] at h
        rcases hi : i64fromStr l with _ | m
        · rw [hi] at h; simp at h
        · rw [hi] at h
          simp only [Except.ok.injEq] at h
          rw [h]
      · rw [if_pos (by simpa using hu)] at h; simp at h
  · intro h
    have hb : ∀ b ∈ l, 43 ≤ b ∧ b ≤ 57 := i64fromStr_bytes l n h
    have hne : l ≠ [] := by
      intro he; subst he; simp [i64fromStr] at h
    have hu : utf8Valid l = true :=
      ascii_utf8Valid l (fun b hbm => by have := hb b hbm; omega)
    unfold parse_int
    rw [if_neg (by simpa using hne), if_neg (by simp [hu]), h]

/-- Bytes accepted by parse_int are signs or digits; in particular the
span holds no line feed or carriage return. -/
theorem parse_int_bytes (l : List Nat) (n : Int) (h : parse_int l = Except.ok n) :
    ∀ b ∈ l, 43 ≤ b ∧ b ≤ 57 :=
  i64fromStr_bytes l n ((parse_int_ok_iff l n).mp h)

/-- parse_int recovers a rendered natural number within the i64 range. -/
theorem parse_int_natDec (m : Nat) (h : m ≤ 9223372036854775807) :
    parse_int (natDec m) = Except.ok (m : Int) := by
  rw [parse_int_ok_iff]
  rcases hnd : natDec m with _ | ⟨b, t⟩
  · exact absurd hnd (natDec_ne_nil m)
  · have hbd : 48 ≤ b ∧ b ≤ 57 := natDec_digits m b (by rw [hnd]; simp)
    simp only [i64fromStr]
    rw [if_neg (by omega), if_neg (by omega), ← hnd]
    rw [pos64_some_iff]
    exact ⟨natDec_ne_nil m, natDec_digits m, by rw [decVal_natDec], by rw [decVal_natDec]; exact h⟩

/-- parse_int recovers a rendered integer within the i64 range. -/
theorem parse_int_intDec (n : Int) (h1 : -9223372036854775808 ≤ n)
    (h2 : n ≤ 9223372036854775807) : parse_int (intDec n) = Except.ok n := by
  unfold intDec
  by_cases hn : n < 0
  · rw [if_pos hn, parse_int_ok_iff]
    simp only [i64fromStr]
    rw [if_pos trivial, if_neg (by omega), neg64_some_iff]
    refine ⟨natDec_ne_nil _, natDec_digits _, ?_, ?_⟩
    · rw [decVal_natDec]
      omega
    · rw [decVal_natDec]
      omega
  · rw [if_neg hn]
    have := parse_int_natDec n.toNat (by omega)
    rw [this]
    congr 1
    omega

/-- The bytes of a rendered integer are signs or digits. -/
theorem intDec_bytes (n : Int) : ∀ b ∈ intDec n, 43 ≤ b ∧ b ≤ 57 := by
  unfold intDec
  by_cases hn : n < 0
  · rw [if_pos hn]
    intro b hb
    rcases List.mem_cons.mp hb with hb | hb
    · omega
    · have := natDec_digits _ b hb; omega
  · rw [if_neg hn]
    intro b hb
    have := natDec_digits _ b hb
    omega

/-- The lossy conversion is the identity on valid UTF-8 byte lists. -/
theorem utf8Lossy_of_valid (l : List Nat) (h : utf8Valid l = true) : utf8Lossy l = l := by
  induction l using utf8Valid.induct with
  | case1 => rfl
  | case2 b t hb ih =>
    rw [utf8Valid.eq_def] at h
    simp [hb] at h
    rw [utf8Lossy.eq_def]
    simp [hb, ih h]
  | case3 b h1 h2 =>
    simp [utf8Valid, h1, h2] at h
  | case4 b h1 h2 c1 t ih =>
    rw [utf8Valid.eq_def] at h
    simp [h1, h2] at h
    obtain ⟨ha, hv⟩ := h
    rw [utf8Lossy.eq_def]
    simp [h1, h2, ha, ih hv]
  | case5 b h1 h2 h3 =>
    simp [utf8Valid, h1, h2, h3] at h
  | case6 b h1 h2 h3 c1 hc =>
    simp [utf8Valid, h1, h2, h3, hc] at h
  | case7 b h1 h2 h3 c1 hc c2 t ih =>
    rw [utf8Valid.eq_def] at h
    simp [h1, h2, h3, hc] at h
    obtain ⟨ha, hv⟩ := h
    rw [utf8Lossy.eq_def]
    simp [h1, h2, h3, hc, ha, ih hv]
  | case8 b h1 h2 h3 c1 t hc =>
    rw [utf8Valid.eq_def] at h
    simp [h1, h2, h3, hc] at h
  | case9 b h1 h2 h3 h4 =>
    simp [utf8Valid, h1, h2, h3, h4] at h
  | case10 b h1 h2 h3 h4 c1 hc =>
    simp [utf8Valid, h1, h2, h3, h4, hc] at h
  | case11 b h1 h2 h3 h4 c1 hc c2 hc2 =>
    simp [utf8Valid, h1, h2, h3, h4, hc, hc2] at h
  | case12 b h1 h2 h3 h4 c1 hc c2 hc2 c3 t ih =>
    rw [utf8Valid.eq_def] at h
    simp [h1, h2, h3, h4, hc, hc2] at h
    obtain ⟨ha, hv⟩ := h
    rw [utf8Lossy.eq_def]
    simp [h1, h2, h3, h4, hc, hc2, ha, ih hv]
  | case13 b h1 h2 h3 h4 c1 hc c2 t hc2 =>
    rw [utf8Valid.eq_def] at h
    simp [h1, h2, h3, h4, hc, hc2] at h
  | case14 b h1 h2 h3 h4 c1 t hc =>
    rw [utf8Valid.eq_def] at h
    simp [h1, h2, h3, h4, hc] at h
  | case15 b t h1 h2 h3 h4 =>
    rw [utf8Valid.eq_def] at h
    simp [h1, h2, h3, h4] at h

/-- read_exact on a stream holding enough bytes splits it. -/
theorem read_exact_split (l : Nat) (payload rest : List Nat) (hlen : payload.length = l) :
    read_exact l (payload ++ rest) = (Except.ok payload, rest) := by
  subst hlen
  unfold read_exact
  rw [if_neg (by simp [List.length_append])]
  rw [List.take_left, List.drop_left]

/-- Reading a bulk string body of the right length followed by CR LF
succeeds and consumes exactly through the terminator. -/
theorem read_bulk_string_ok (payload rest : List Nat) :
    read_bulk_string payload.length (payload ++ 13 :: 10 :: rest) = (Except.ok payload, rest) := by
  unfold read_bulk_string
  rw [read_exact_split payload.length payload (13 :: 10 :: rest) rfl]
  have hr : read_line (13 :: 10 :: rest) = (Except.ok [], rest) := by
    have := read_line_crlf [] rest (by simp)
    simpa using this
  simp [hr]

/-- A short read fails with the io error wrapped as ParseFailed. -/
theorem read_bulk_string_short (l : Nat) (s : List Nat) (h : s.length < l) :
    read_bulk_string l s
      = (Except.error (RespError.ParseFailed "io err: failed to fill whole buffer"), []) := by
  unfold read_bulk_string read_exact
  rw [if_pos h]

/-- A nonempty trailer line after the payload fails with the bad bulk
string format error. -/
theorem read_bulk_string_trailer (payload trailer rest : List Nat) (hne : trailer ≠ [])
    (hlf : 10 ∉ trailer) :
    read_bulk_string payload.length (payload ++ (trailer ++ 13 :: 10 :: rest))
      = (Except.error (RespError.ParseFailed "bad bulk string format"), rest) := by
  unfold read_bulk_string
  rw [read_exact_split payload.length payload (trailer ++ 13 :: 10 :: rest) rfl]
  have hr : read_line (trailer ++ 13 :: 10 :: rest) = (Except.ok trailer, rest) :=
    read_line_crlf trailer rest hlf
  simp [hr, hne]

/-- A successful bulk string read came from exactly the returned payload
followed by a CR LF terminator. -/
theorem read_bulk_string_ok_inv (l : Nat) (s buf r : List Nat)
    (h : read_bulk_string l s = (Except.ok buf, r)) :
    buf.length = l ∧ s = buf ++ 13 :: 10 :: r := by
  unfold read_bulk_string read_exact at h
  by_cases hlt : s.length < l
  · rw [if_pos hlt] at h; simp at h
  · rw [if_neg hlt] at h
    rcases hrl : read_line (s.drop l) with ⟨res, r2⟩
    rcases res with e | line
    · simp [hrl] at h
    · simp only [hrl] at h
      by_cases hl : line.length = 0
      · have hline : line = [] := List.length_eq_zero.mp hl
        subst hline
        simp at h
        obtain ⟨hb, hr2⟩ := h
        have hdrop := read_line_ok _ _ _ hrl
        simp at hdrop
        constructor
        · rw [← hb]
          simp [List.length_take]
          omega
        · have hsplit : s = s.take l ++ s.drop l := (List.take_append_drop l s).symm
          rw [hsplit, hdrop, hb, hr2]
      · simp [hl] at h

/-- A tag byte other than line feed followed by sign or digit bytes holds
no line feed. -/
theorem not_mem_cons_digits (t : Nat) (l : List Nat) (ht : t ≠ 10)
    (hd : ∀ b ∈ l, 43 ≤ b ∧ b ≤ 57) : 10 ∉ t :: l := by
  intro hm
  rcases List.mem_cons.mp hm with hm | hm
  · omega
  · have := hd 10 hm; omega

/-- The digit bytes of natDec, weakened to the sign or digit range. -/
theorem natDec_sign_digits (n : Nat) : ∀ b ∈ natDec n, 43 ≤ b ∧ b ≤ 57 := by
  intro b hb
  have := natDec_digits n b hb
  omega

/-- Reading back an encoded integer value. -/
theorem readF_ok_int (fuel : Nat) (n : Int) (rest : List Nat)
    (h1 : -9223372036854775808 ≤ n) (h2 : n ≤ 9223372036854775807) :
    readF (fuel + 1) (write_int n ++ rest) = some (Outcome.ok (RespValue.Int n), rest) := by
  have hsh : write_int n ++ rest = (58 :: intDec n) ++ 13 :: 10 :: rest := by
    simp [write_int]
  rw [hsh]
  have hnl : 10 ∉ (58 :: intDec n) :=
    not_mem_cons_digits 58 _ (by omega) (intDec_bytes n)
  simp only [readF]
  rw [read_line_crlf _ _ hnl]
  simp [parse_int_intDec n h1 h2]

/-- Reading back an encoded bulk string value. -/
theorem readF_ok_bulk (fuel : Nat) (b rest : List Nat)
    (hlen : b.length ≤ 9223372036854775807) :
    readF (fuel + 1) (write_bulk b ++ rest) = some (Outcome.ok (RespValue.Bulk b), rest) := by
  have hsh : write_bulk b ++ rest
      = (36 :: natDec b.length) ++ 13 :: 10 :: (b ++ 13 :: 10 :: rest) := by
    simp [write_bulk]
  rw [hsh]
  have hnl : 10 ∉ (36 :: natDec b.length) :=
    not_mem_cons_digits 36 _ (by omega) (natDec_sign_digits _)
  simp only [readF]
  rw [read_line_crlf _ _ hnl]
  have hne1 : ¬((b.length : Int) = -1) := by omega
  have hneg : ¬((b.length : Int) < 0) := by omega
  simp [parse_int_natDec b.length hlen, hne1, hneg, Int.toNat_natCast,
    read_bulk_string_ok b rest]

/-- Reading back an encoded error value with a clean payload. -/
theorem readF_ok_error (fuel : Nat) (p rest : List Nat) (hu : utf8Valid p = true)
    (hlf : 10 ∉ p) :
    readF (fuel + 1) (write (RespValue.Error p) ++ rest)
      = some (Outcome.ok (RespValue.Error p), rest) := by
  have hlossy := utf8Lossy_of_valid p hu
  have hsh : write (RespValue.Error p) ++ rest = (45 :: p) ++ 13 :: 10 :: rest := by
    simp [write, write_error, hlossy]
  rw [hsh]
  have hnl : 10 ∉ (45 :: p) := by
    intro hm
    rcases List.mem_cons.mp hm with hm | hm
    · omega
    · exact hlf hm
  simp only [readF]
  rw [read_line_crlf _ _ hnl]
  simp

mutual
/-- Reading back any wellformed encoded value succeeds, with any fuel at
least the node count. -/
theorem readF_write (v : RespValue) (hwf : wf v = true) :
    ∀ (fuel : Nat) (rest : List Nat), nodeCount v ≤ fuel →
      readF fuel (write v ++ rest) = some (Outcome.ok v, rest) := by
  match v with
  | RespValue.Int n =>
    intro fuel rest hf
    rcases fuel with _ | f
    · simp [nodeCount] at hf
    · have hr : (-9223372036854775808 ≤ n && n ≤ 9223372036854775807) = true := by
        simpa [wf] using hwf
      rw [Bool.and_eq_true] at hr
      have h1 : -9223372036854775808 ≤ n := by simpa using hr.1
      have h2 : n ≤ 9223372036854775807 := by simpa using hr.2
      exact readF_ok_int f n rest h1 h2
  | RespValue.NilBulk => simp [wf] at hwf
  | RespValue.NilArray => simp [wf] at hwf
  | RespValue.Bulk b =>
    intro fuel rest hf
    rcases fuel with _ | f
    · simp [nodeCount] at hf
    · have hlen : b.length ≤ 9223372036854775807 := by simpa [wf] using hwf
      exact readF_ok_bulk f b rest hlen
  | RespValue.Error p =>
    intro fuel rest hf
    rcases fuel with _ | f
    · simp [nodeCount] at hf
    · have hr : (utf8Valid p && p.all (fun b => b ≠ 10)) = true := by
        simpa [wf] using hwf
      rw [Bool.and_eq_true] at hr
      have hlf : 10 ∉ p := by
        intro hm
        have := List.all_eq_true.mp hr.2 10 hm
        simp at this
      exact readF_ok_error f p rest hr.1 hlf
  | RespValue.Array l =>
    intro fuel rest hf
    rcases fuel with _ | f
    · simp [nodeCount] at hf
    · have hr : (l.length ≤ 9223372036854775807 && wfList l) = true := by
        simpa [wf] using hwf
      rw [Bool.and_eq_true] at hr
      have hlen : l.length ≤ 9223372036854775807 := by simpa using hr.1
      have hcount : nodeCountList l ≤ f := by
        have : nodeCount (RespValue.Array l) = 1 + nodeCountList l := by simp [nodeCount]
        omega
      have hsh : write (RespValue.Array l) ++ rest
          = (42 :: natDec l.length) ++ 13 :: 10 :: (writeElems l ++ rest) := by
        simp [write]
      rw [hsh]
      have hnl : 10 ∉ (42 :: natDec l.length) :=
        not_mem_cons_digits 42 _ (by omega) (natDec_sign_digits _)
      simp only [readF]
      rw [read_line_crlf _ _ hnl]
      have hne1 : ¬((l.length : Int) = -1) := by omega
      have hneg : ¬((l.length : Int) < 0) := by omega
      have hmany := readMany_write l hr.2 f rest hcount
      simp [parse_int_natDec l.length hlen, hne1, hneg, Int.toNat_natCast, hmany]

/-- Reading back a list of wellformed encoded values succeeds. -/
theorem readMany_write (l : List RespValue) (hwl : wfList l = true) :
    ∀ (fuel : Nat) (rest : List Nat), nodeCountList l ≤ fuel →
      readMany (readF fuel) l.length (writeElems l ++ rest)
        = some (Outcome.ok l, rest) := by
  match l with
  | [] =>
    intro fuel rest _
    simp [writeElems, readMany]
  | v :: vs =>
    intro fuel rest hf
    have hr : (wf v && wfList vs) = true := by simpa [wfList] using hwl
    rw [Bool.and_eq_true] at hr
    have hcv : nodeCount v ≤ fuel := by
      have : nodeCountList (v :: vs) = nodeCount v + nodeCountList vs := by
        simp [nodeCountList]
      omega
    have hcvs : nodeCountList vs ≤ fuel := by
      have : nodeCountList (v :: vs) = nodeCount v + nodeCountList vs := by
        simp [nodeCountList]
      omega
    have hsh : writeElems (v :: vs) ++ rest = write v ++ (writeElems vs ++ rest) := by
      simp [writeElems]
    rw [hsh]
    have h1 := readF_write v hr.1 fuel (writeElems vs ++ rest) hcv
    have h2 := readMany_write vs hr.2 fuel rest hcvs
    simp [readMany, h1, h2]
end

mutual
/-- The encoding of a value is at least as long as its node count. -/
theorem nodeCount_le_write (v : RespValue) : nodeCount v ≤ (write v).length := by
  match v with
  | RespValue.Int n => simp [nodeCount, write, write_int]
  | RespValue.NilBulk => simp [nodeCount, write]
  | RespValue.NilArray => simp [nodeCount, write]
  | RespValue.Bulk b => simp [nodeCount, write, write_bulk]
  | RespValue.Error p => simp [nodeCount, write, write_error]
  | RespValue.Array l =>
    have := nodeCountList_le_writeElems l
    simp [nodeCount, write]
    omega

/-- The encoding of a list of values is at least as long as its count. -/
theorem nodeCountList_le_writeElems (l : List RespValue) :
    nodeCountList l ≤ (writeElems l).length := by
  match l with
  | [] => simp [nodeCountList, writeElems]
  | v :: vs =>
    have h1 := nodeCount_le_write v
    have h2 := nodeCountList_le_writeElems vs
    simp [nodeCountList, writeElems]
    omega
end

/-- Decoding an encoded wellformed value gives it back, consuming all
input. -/
theorem decode_write (v : RespValue) (hwf : wf v = true) :
    decode (write v) = some (Outcome.ok v, []) := by
  unfold decode
  have hc : nodeCount v ≤ (write v).length + 1 := by
    have := nodeCount_le_write v
    omega
  have h := readF_write v hwf ((write v).length + 1) [] hc
  simpa using h

/-- A dollar tag whose parsed length is below minus one fails with the
malformed length error. -/
theorem readF_dollar_neg (ds rest : List Nat) (n : Int) (hp : parse_int ds = Except.ok n)
    (hlt : n < -1) (fuel : Nat) :
    readF (fuel + 1) (36 :: ds ++ 13 :: 10 :: rest)
      = some (Outcome.err (RespError.ParseFailed "malformed length"), rest) := by
  have hb := parse_int_bytes ds n hp
  have hnl : 10 ∉ (36 :: ds) := not_mem_cons_digits 36 ds (by omega) hb
  have hsh : 36 :: ds ++ 13 :: 10 :: rest = (36 :: ds) ++ 13 :: 10 :: rest := by simp
  rw [hsh]
  simp only [readF]
  rw [read_line_crlf _ _ hnl]
  have hne1 : ¬(n = -1) := by omega
  have hneg : n < 0 := by omega
  simp [hp, hne1, hneg]

/-- A star tag whose parsed count is below minus one fails with the
malformed length error. -/
theorem readF_star_neg (ds rest : List Nat) (n : Int) (hp : parse_int ds = Except.ok n)
    (hlt : n < -1) (fuel : Nat) :
    readF (fuel + 1) (42 :: ds ++ 13 :: 10 :: rest)
      = some (Outcome.err (RespError.ParseFailed "malformed length"), rest) := by
  have hb := parse_int_bytes ds n hp
  have hnl : 10 ∉ (42 :: ds) := not_mem_cons_digits 42 ds (by omega) hb
  have hsh : 42 :: ds ++ 13 :: 10 :: rest = (42 :: ds) ++ 13 :: 10 :: rest := by simp
  rw [hsh]
  simp only [readF]
  rw [read_line_crlf _ _ hnl]
  have hne1 : ¬(n = -1) := by omega
  have hneg : n < 0 := by omega
  simp [hp, hne1, hneg]

/-- The element loop of write_bulks equals a map and join. -/
theorem write_bulks_elems_eq (bs : List (List Nat)) :
    write_bulks_elems bs = (bs.map write_bulk).flatten := by
  induction bs with
  | nil => rfl
  | cons b t ih => simp [write_bulks_elems, ih]

/-- C1 counterexample: the claimed writer and reader round trip fails on
NilBulkString, whose encoding starts with a bare dollar line that the
reader rejects as a malformed integer. -/
theorem c1_counterexample :
    decode (write RespValue.NilBulk)
      = some (Outcome.err (RespError.ParseFailed "malformed integer"), [45, 49, 13, 10]) ∧
    decode (write RespValue.NilBulk) ≠ some (Outcome.ok RespValue.NilBulk, []) := by
  refine ⟨rfl, ?_⟩
  intro h
  have h2 : (some (Outcome.ok RespValue.NilBulk, ([] : List Nat)))
      = some (Outcome.err (RespError.ParseFailed "malformed integer"), [45, 49, 13, 10]) := by
    rw [← h]
    rfl
  injection h2 with h3
  injection h3 with h4 h5
  exact Outcome.noConfusion h4

/-- C1 amended: writing any value that contains no nil variant, whose
integers and lengths fit a signed 64-bit integer, and whose error payloads
are valid UTF-8 without a line feed byte, then reading the produced bytes,
returns exactly that value and consumes the whole encoding. -/
theorem c1_roundtrip (v : RespValue) (hwf : wf v = true) :
    decode (write v) = some (Outcome.ok v, []) :=
  decode_write v hwf

/-- C1 witness: the round trip at a depth three nested array holding an
integer, bulk strings, an empty bulk string and an error. -/
theorem c1_roundtrip_witness :
    wf (RespValue.Array [RespValue.Array [RespValue.Array [RespValue.Int 1,
        RespValue.Bulk [97]], RespValue.Error [79]], RespValue.Bulk [],
        RespValue.Int (-5)]) = true ∧
    decode (write (RespValue.Array [RespValue.Array [RespValue.Array [RespValue.Int 1,
        RespValue.Bulk [97]], RespValue.Error [79]], RespValue.Bulk [],
        RespValue.Int (-5)]))
      = some (Outcome.ok (RespValue.Array [RespValue.Array [RespValue.Array [RespValue.Int 1,
          RespValue.Bulk [97]], RespValue.Error [79]], RespValue.Bulk [],
          RespValue.Int (-5)]), []) :=
  ⟨rfl, c1_roundtrip _ rfl⟩

/-- C2: the writer emits the bytes of DOLLAR CR LF MINUS ONE CR LF for
NilBulkString and STAR CR LF MINUS ONE CR LF for NilArray, not the claimed
protocol forms DOLLAR MINUS ONE CR LF and STAR MINUS ONE CR LF: the format
strings in the source put the CR LF before the minus one. -/
theorem c2_nil_encoding :
    write RespValue.NilBulk = [36, 13, 10, 45, 49, 13, 10] ∧
    write RespValue.NilArray = [42, 13, 10, 45, 49, 13, 10] ∧
    write RespValue.NilBulk ≠ [36, 45, 49, 13, 10] ∧
    write RespValue.NilArray ≠ [42, 45, 49, 13, 10] := by
  refine ⟨rfl, rfl, by decide, by decide⟩

/-- C3: on the two byte input CR LF the reader strips the terminator,
obtains an empty line, and indexes its first byte: a Rust panic, not a
ParseFailed error. -/
theorem c3_empty_line_crash : decode [13, 10] = some (Outcome.crash, []) := rfl

/-- C4 counterexample: execute serializes the PING command into the writer
but never flushes it: after the call the transport side is still empty
while the unflushed writer buffer holds the whole serialized command. -/
theorem c4_counterexample :
    (execute [[80, 73, 78, 71]] ⟨[], [], [43, 80, 79, 78, 71, 13, 10]⟩).2.flushed = [] ∧
    (execute [[80, 73, 78, 71]] ⟨[], [], [43, 80, 79, 78, 71, 13, 10]⟩).2.buffered
      = write_bulks [[80, 73, 78, 71]] ∧
    write_bulks [[80, 73, 78, 71]] ≠ [] := by
  refine ⟨rfl, rfl, by decide⟩

/-- C4 amended: execute writes the serialization of the command through
write_bulks into the writer (without flushing it), performs exactly one
read on the reader, and returns that read result. -/
theorem c4_execute (cmd : List (List Nat)) (st : ConnState) (r : Outcome RespValue)
    (rest : List Nat) (h : readF (st.input.length + 1) st.input = some (r, rest)) :
    execute cmd st
      = (some r, ⟨st.buffered ++ write_bulks cmd, st.flushed, rest⟩) := by
  unfold execute decode
  rw [h]

/-- C4 witness: executing PING against a reply of a simple string. -/
theorem c4_execute_witness :
    readF (([43, 79, 75, 13, 10] : List Nat).length + 1) [43, 79, 75, 13, 10]
      = some (Outcome.ok (RespValue.Bulk [79, 75]), []) ∧
    execute [[80, 73, 78, 71]] ⟨[], [], [43, 79, 75, 13, 10]⟩
      = (some (Outcome.ok (RespValue.Bulk [79, 75])),
          ⟨write_bulks [[80, 73, 78, 71]], [], []⟩) := by
  constructor
  · rfl
  · have h := c4_execute [[80, 73, 78, 71]] ⟨[], [], [43, 79, 75, 13, 10]⟩
      (Outcome.ok (RespValue.Bulk [79, 75])) [] rfl
    simpa using h

/-- C5 counterexample: auth writes the command word in lowercase (bytes of
the text auth), not the claimed uppercase AUTH serialization. -/
theorem c5_counterexample :
    (auth [120] ⟨[], [], [43, 79, 75, 13, 10]⟩).2.buffered
      = [42, 50, 13, 10, 36, 52, 13, 10, 97, 117, 116, 104, 13, 10, 36, 49, 13, 10,
          120, 13, 10] ∧
    (auth [120] ⟨[], [], [43, 79, 75, 13, 10]⟩).2.buffered
      ≠ [42, 50, 13, 10, 36, 52, 13, 10, 65, 85, 84, 72, 13, 10, 36, 49, 13, 10,
          120, 13, 10] := by
  refine ⟨rfl, by decide⟩

/-- C5 amended: auth writes to the sink exactly the serialization of the
two element command of the lowercase word auth and the password, returning
the result of one read; and a connection constructed with credentials
whose auth exchange returns an error aborts construction. -/
theorem c5_auth :
    (∀ (p : List Nat) (st : ConnState) (r : Outcome RespValue) (rest : List Nat),
      readF (st.input.length + 1) st.input = some (r, rest) →
      auth p st = (some r,
        ⟨st.buffered ++ ([42, 50, 13, 10, 36, 52, 13, 10, 97, 117, 116, 104, 13, 10, 36]
          ++ natDec p.length ++ [13, 10] ++ p ++ [13, 10]), st.flushed, rest⟩)) ∧
    (∀ (p input : List Nat) (e : RespError) (st2 : ConnState),
      auth p ⟨[], [], input⟩ = (some (Outcome.err e), st2) →
      connect (some p) input = ConnectResult.authFail) := by
  constructor
  · intro p st r rest h
    unfold auth execute decode
    rw [h]
    have h2 : natDec 2 = [50] := rfl
    have h4 : natDec 4 = [52] := rfl
    simp [write_bulks, write_bulks_elems, write_bulk, h2, h4]
  · intro p input e st2 h
    unfold connect
    dsimp only
    rw [h]

/-- C5 witness: auth with a one byte password against a simple string
reply, and a connect with empty reply bytes whose auth exchange fails. -/
theorem c5_auth_witness :
    readF (([43, 79, 75, 13, 10] : List Nat).length + 1) [43, 79, 75, 13, 10]
      = some (Outcome.ok (RespValue.Bulk [79, 75]), []) ∧
    auth [120] ⟨[], [], [43, 79, 75, 13, 10]⟩
      = (some (Outcome.ok (RespValue.Bulk [79, 75])),
          ⟨[42, 50, 13, 10, 36, 52, 13, 10, 97, 117, 116, 104, 13, 10, 36]
            ++ natDec 1 ++ [13, 10] ++ [120] ++ [13, 10], [], []⟩) ∧
    auth [120] ⟨[], [], []⟩
      = (some (Outcome.err (RespError.ParseFailed "line not ends with CRLF")),
          ⟨[42, 50, 13, 10, 36, 52, 13, 10, 97, 117, 116, 104, 13, 10, 36, 49, 13, 10,
            120, 13, 10], [], []⟩) ∧
    connect (some [120]) [] = ConnectResult.authFail := by
  refine ⟨rfl, ?_, rfl, ?_⟩
  · have h := c5_auth.1 [120] ⟨[], [], [43, 79, 75, 13, 10]⟩
      (Outcome.ok (RespValue.Bulk [79, 75])) [] rfl
    simpa using h
  · exact c5_auth.2 [120] []
      (RespError.ParseFailed "line not ends with CRLF") _ rfl

/-- C6: the reader maps the nil length and nil count lines to the nil
values, the zero length bulk string and zero count array to the distinct
empty values, and any parsed length or count below minus one, for either
the dollar or the star tag, to the malformed length parse error. -/
theorem c6_edge_cases :
    decode [36, 45, 49, 13, 10] = some (Outcome.ok RespValue.NilBulk, []) ∧
    decode [42, 45, 49, 13, 10] = some (Outcome.ok RespValue.NilArray, []) ∧
    (decode [36, 48, 13, 10, 13, 10] = some (Outcome.ok (RespValue.Bulk []), []) ∧
      RespValue.Bulk [] ≠ RespValue.NilBulk) ∧
    (decode [42, 48, 13, 10] = some (Outcome.ok (RespValue.Array []), []) ∧
      RespValue.Array [] ≠ RespValue.NilArray) ∧
    (∀ (ds rest : List Nat) (n : Int), parse_int ds = Except.ok n → n < -1 →
      decode (36 :: ds ++ 13 :: 10 :: rest)
        = some (Outcome.err (RespError.ParseFailed "malformed length"), rest)) ∧
    (∀ (ds rest : List Nat) (n : Int), parse_int ds = Except.ok n → n < -1 →
      decode (42 :: ds ++ 13 :: 10 :: rest)
        = some (Outcome.err (RespError.ParseFailed "malformed length"), rest)) := by
  refine ⟨rfl, rfl, ⟨rfl, by intro h; injection h⟩, ⟨rfl, by intro h; injection h⟩, ?_, ?_⟩
  · intro ds rest n hp hlt
    exact readF_dollar_neg ds rest n hp hlt _
  · intro ds rest n hp hlt
    exact readF_star_neg ds rest n hp hlt _

/-- C6 witness: length minus two under both tags. -/
theorem c6_edge_cases_witness :
    parse_int [45, 50] = Except.ok (-2) ∧ ((-2 : Int) < -1) ∧
    decode [36, 45, 50, 13, 10]
      = some (Outcome.err (RespError.ParseFailed "malformed length"), []) ∧
    decode [42, 45, 50, 13, 10]
      = some (Outcome.err (RespError.ParseFailed "malformed length"), []) := by
  refine ⟨rfl, by decide, ?_, ?_⟩
  · have h := c6_edge_cases.2.2.2.2.1 [45, 50] [] (-2) rfl (by decide)
    simpa using h
  · have h := c6_edge_cases.2.2.2.2.2 [45, 50] [] (-2) rfl (by decide)
    simpa using h

/-- C7: decoding a bulk string body of declared length n reads exactly n
payload bytes, fails on a short read, then requires an empty CR LF
terminated trailer line, failing with the bad bulk string format error on
a nonempty trailer; and a success consumed exactly the payload followed by
CR LF. -/
theorem c7_bulk_string :
    (∀ (payload rest : List Nat),
      read_bulk_string payload.length (payload ++ 13 :: 10 :: rest)
        = (Except.ok payload, rest)) ∧
    (∀ (l : Nat) (s : List Nat), s.length < l →
      (read_bulk_string l s).1
        = Except.error (RespError.ParseFailed "io err: failed to fill whole buffer")) ∧
    (∀ (payload trailer rest : List Nat), trailer ≠ [] → 10 ∉ trailer →
      read_bulk_string payload.length (payload ++ (trailer ++ 13 :: 10 :: rest))
        = (Except.error (RespError.ParseFailed "bad bulk string format"), rest)) ∧
    (∀ (l : Nat) (s buf r : List Nat), read_bulk_string l s = (Except.ok buf, r) →
      buf.length = l ∧ s = buf ++ 13 :: 10 :: r) := by
  refine ⟨read_bulk_string_ok, ?_, read_bulk_string_trailer, read_bulk_string_ok_inv⟩
  intro l s h
  rw [read_bulk_string_short l s h]

/-- C7 witness: the four parts at the payload foo, a short stream, an
extra trailer byte, and the inversion of the successful case. -/
theorem c7_bulk_string_witness :
    read_bulk_string 3 [102, 111, 111, 13, 10] = (Except.ok [102, 111, 111], []) ∧
    (read_bulk_string 5 [1, 2]).1
      = Except.error (RespError.ParseFailed "io err: failed to fill whole buffer") ∧
    read_bulk_string 3 [102, 111, 111, 120, 13, 10]
      = (Except.error (RespError.ParseFailed "bad bulk string format"), []) ∧
    ([102, 111, 111] : List Nat).length = 3 ∧
    ([102, 111, 111, 13, 10] : List Nat) = [102, 111, 111] ++ 13 :: 10 :: [] := by
  refine ⟨?_, ?_, ?_, ?_, ?_⟩
  · have h := c7_bulk_string.1 [102, 111, 111] []
    simpa using h
  · exact c7_bulk_string.2.1 5 [1, 2] (by decide)
  · have h := c7_bulk_string.2.2.1 [102, 111, 111] [120] [] (by decide) (by decide)
    simpa using h
  · exact (c7_bulk_string.2.2.2 3 [102, 111, 111, 13, 10] [102, 111, 111] [] rfl).1
  · exact (c7_bulk_string.2.2.2 3 [102, 111, 111, 13, 10] [102, 111, 111] [] rfl).2

/-- C8 counterexample: the reader accepts a remainder with a leading plus
sign, which the claimed form with only an optional minus sign excludes. -/
theorem c8_counterexample :
    decode [58, 43, 53, 13, 10] = some (Outcome.ok (RespValue.Int 5), []) ∧
    ¬ claimIntForm [43, 53] 5 := by
  refine ⟨rfl, ?_⟩
  rintro (⟨⟨_, hdig⟩, _, _⟩ | ⟨hh, _, _⟩)
  · exact absurd (hdig 43 (by simp)) (by omega)
  · simp at hh

/-- Every error parse_int returns is a ParseFailed with some message. -/
theorem parse_int_error_form (l : List Nat) (e : RespError)
    (h : parse_int l = Except.error e) : ∃ msg : String, e = RespError.ParseFailed msg := by
  unfold parse_int at h
  by_cases h0 : l.length = 0
  · rw [if_pos h0] at h
    injection h with h1
    exact ⟨"malformed integer", h1.symm⟩
  · rw [if_neg h0] at h
    by_cases hu : (!utf8Valid l) = true
    · rw [if_pos hu] at h
      injection h with h1
      exact ⟨"bad utf8", h1.symm⟩
    · rw [if_neg hu] at h
      rcases hi : i64fromStr l with _ | m
      · rw [hi] at h
        injection h with h1
        exact ⟨"parse int failed", h1.symm⟩
      · rw [hi] at h
        injection h

/-- C8 amended: for the colon tag the reader accepts the line remainder
exactly when it is a base ten signed decimal 64-bit integer with an
optional leading minus or plus sign and nothing else, returning that
integer; and every remainder not of that form, invalid UTF-8 included,
yields a ParseFailed error (never a panic and never a value). -/
theorem c8_integer :
    (∀ (rem rest : List Nat) (n : Int), 10 ∉ rem →
      (decode (58 :: rem ++ 13 :: 10 :: rest)
        = some (Outcome.ok (RespValue.Int n), rest) ↔ amendedIntForm rem n)) ∧
    (∀ (rem rest : List Nat), 10 ∉ rem → (¬ ∃ n : Int, amendedIntForm rem n) →
      ∃ msg : String, decode (58 :: rem ++ 13 :: 10 :: rest)
        = some (Outcome.err (RespError.ParseFailed msg), rest)) := by
  constructor
  · intro rem rest n hlf
    unfold decode
    have hnl : 10 ∉ (58 :: rem) := by
      intro hm
      rcases List.mem_cons.mp hm with hm | hm
      · omega
      · exact hlf hm
    have hsh : 58 :: rem ++ 13 :: 10 :: rest = (58 :: rem) ++ 13 :: 10 :: rest := by simp
    rw [hsh]
    simp only [readF]
    rw [read_line_crlf _ _ hnl]
    rcases hp : parse_int rem with e | m
    · simp only [hp]
      constructor
      · intro h
        injection h with h1
        injection h1 with h2 h3
        exact Outcome.noConfusion h2
      · intro ha
        have := (parse_int_ok_iff rem n).mpr ((i64fromStr_iff rem n).mpr ha)
        rw [hp] at this
        injection this
    · simp only [hp]
      constructor
      · intro h
        injection h with h1
        injection h1 with h2 h3
        injection h2 with h4
        injection h4 with h5
        rw [← h5]
        exact (i64fromStr_iff rem m).mp ((parse_int_ok_iff rem m).mp hp)
      · intro ha
        have := (parse_int_ok_iff rem n).mpr ((i64fromStr_iff rem n).mpr ha)
        rw [hp] at this
        injection this with h6
        rw [h6]
        simp
  · intro rem rest hlf hno
    unfold decode
    have hnl : 10 ∉ (58 :: rem) := by
      intro hm
      rcases List.mem_cons.mp hm with hm | hm
      · omega
      · exact hlf hm
    have hsh : 58 :: rem ++ 13 :: 10 :: rest = (58 :: rem) ++ 13 :: 10 :: rest := by simp
    rw [hsh]
    simp only [readF]
    rw [read_line_crlf _ _ hnl]
    rcases hp : parse_int rem with e | m
    · obtain ⟨msg, hmsg⟩ := parse_int_error_form rem e hp
      refine ⟨msg, ?_⟩
      simp [hp, hmsg]
    · exfalso
      exact hno ⟨m, (i64fromStr_iff rem m).mp ((parse_int_ok_iff rem m).mp hp)⟩

/-- C8 witness: the remainder of a plus sign and the digit five is
accepted with value five, while the remainder of one lowercase letter and
the remainder of one invalid UTF-8 byte are rejected with a ParseFailed
error. -/
theorem c8_integer_witness :
    (10 ∉ ([43, 53] : List Nat)) ∧
    decode [58, 43, 53, 13, 10] = some (Outcome.ok (RespValue.Int 5), []) ∧
    (∃ msg : String, decode [58, 97, 13, 10]
      = some (Outcome.err (RespError.ParseFailed msg), [])) ∧
    (∃ msg : String, decode [58, 255, 13, 10]
      = some (Outcome.err (RespError.ParseFailed msg), [])) := by
  refine ⟨by decide, ?_, ?_, ?_⟩
  · have hform : amendedIntForm [43, 53] 5 := by
      right
      refine ⟨rfl, ⟨by decide, ?_⟩, ?_, ?_⟩
      · intro b hb
        simp at hb
        omega
      · decide
      · decide
    have h := (c8_integer.1 [43, 53] [] 5 (by decide)).mpr hform
    simpa using h
  · have hno : ¬ ∃ n : Int, amendedIntForm [97] n := by
      rintro ⟨n, ((⟨⟨_, hdig⟩, _, _⟩ | ⟨hh, _, _⟩) | ⟨hh, _, _⟩)⟩
      · exact absurd (hdig 97 (by simp)) (by omega)
      · simp at hh
      · simp at hh
    have h := c8_integer.2 [97] [] (by decide) hno
    simpa using h
  · have hno : ¬ ∃ n : Int, amendedIntForm [255] n := by
      rintro ⟨n, ((⟨⟨_, hdig⟩, _, _⟩ | ⟨hh, _, _⟩) | ⟨hh, _, _⟩)⟩
      · exact absurd (hdig 255 (by simp)) (by omega)
      · simp at hh
      · simp at hh
    have h := c8_integer.2 [255] [] (by decide) hno
    simpa using h

/-- C9: write_bulks on the PING command emits exactly the expected bytes,
likewise on the AUTH secret command; and in general it emits the star tag
with the element count and CR LF followed by each element through
write_bulk in order, where write_bulk emits the dollar tag, the length,
CR LF, the bytes and CR LF. -/
theorem c9_write_bulks :
    write_bulks [[80, 73, 78, 71]]
      = [42, 49, 13, 10, 36, 52, 13, 10, 80, 73, 78, 71, 13, 10] ∧
    write_bulks [[65, 85, 84, 72], [115, 101, 99, 114, 101, 116]]
      = [42, 50, 13, 10, 36, 52, 13, 10, 65, 85, 84, 72, 13, 10, 36, 54, 13, 10,
          115, 101, 99, 114, 101, 116, 13, 10] ∧
    (∀ bs : List (List Nat), write_bulks bs
      = 42 :: natDec bs.length ++ [13, 10] ++ (bs.map write_bulk).flatten) ∧
    (∀ b : List Nat, write_bulk b = 36 :: natDec b.length ++ [13, 10] ++ b ++ [13, 10]) := by
  refine ⟨rfl, rfl, ?_, fun b => rfl⟩
  intro bs
  rw [write_bulks, write_bulks_elems_eq]

/-- C10: the writer pushes an error value through the lossy UTF-8
conversion: every valid UTF-8 payload is emitted verbatim between the
minus tag and CR LF, while the invalid one byte payload 255 is replaced by
the three byte replacement character, so the emitted bytes differ from the
payload. -/
theorem c10_error_lossy :
    (∀ p : List Nat, utf8Valid p = true →
      write (RespValue.Error p) = 45 :: p ++ [13, 10]) ∧
    write (RespValue.Error [255]) = [45, 239, 191, 189, 13, 10] ∧
    (45 :: [255] ++ [13, 10] : List Nat) ≠ [45, 239, 191, 189, 13, 10] := by
  refine ⟨?_, rfl, by decide⟩
  intro p hu
  simp [write, write_error, utf8Lossy_of_valid p hu]

/-- C10 witness: the valid UTF-8 payload OK is emitted verbatim. -/
theorem c10_error_lossy_witness :
    utf8Valid [79, 75] = true ∧
    write (RespValue.Error [79, 75]) = 45 :: [79, 75] ++ [13, 10] :=
  ⟨rfl, c10_error_lossy.1 [79, 75] rfl⟩
